import Mathlib

/-!
# rx-couch: verification of the change-feed / observe / update-replace core

A shallow embedding of the rx-couch client library (`src/lib/server.js`,
`src/lib/db.js` and the later revision of the database module that adds
`update`, `replace`, `allDocs`, `changes` and `observe`).

Documents, request options and change records are modelled as a JSON value
type `Json` with an extra `undef` constructor for JavaScript's `undefined`
appearing as an object field value.  The reactive pipeline is modelled by
explicit functions from the collaborator responses (HTTP fetch results,
change-feed responses) to the emitted streams, states and issued requests:
each network round trip becomes an explicit input, and the long-poll loop
becomes a recursion over the list of server responses received before the
caller cancels.
-/

set_option autoImplicit false

namespace RxCouch

/-- JSON-like values as handled by the library, plus `undef` for JavaScript's
`undefined` when it occurs as an object field value.  Numbers are modelled as
integers (no float arithmetic occurs in the library). -/
inductive Json where
  | null
  | undef
  | bool (b : Bool)
  | num (n : Int)
  | str (s : String)
  | arr (elems : List Json)
  | obj (fields : List (String × Json))

/-- JavaScript truthiness of a value: `null`, `undefined`, `false`, `0` and
`""` are falsy; every object and array is truthy. -/
def jsTruthy : Json → Bool
  | .null => false
  | .undef => false
  | .bool b => b
  | .num n => n != 0
  | .str s => s != ""
  | .arr _ => true
  | .obj _ => true

/-- Truthiness of a possibly-absent value (absent = `undefined` = falsy). -/
def truthyOpt : Option Json → Bool
  | none => false
  | some v => jsTruthy v

/-- `typeof v === 'object'` for the values in the model: objects, arrays and
`null` are of type `'object'` in JavaScript. -/
def isObjType : Json → Bool
  | .obj _ => true
  | .arr _ => true
  | .null => true
  | _ => false

/-- First-match association-list lookup (JavaScript property access on a
plain object). -/
def lookupField : List (String × Json) → String → Option Json
  | [], _ => none
  | (k', v) :: rest, k => if k' = k then some v else lookupField rest k

/-- JavaScript property read `v[k]`; `none` models `undefined`.  Arrays
answer their numeric indices (`a['0']`, ...), as JavaScript arrays do. -/
def jsGet (v : Json) (k : String) : Option Json :=
  match v with
  | .obj fs => lookupField fs k
  | .arr xs => match k.toNat? with
    | some i => xs.get? i
    | none => none
  | _ => none

/-- JavaScript property write `o[k] = v` on a plain object: replaces the
value of an existing key in place, otherwise appends the key. -/
def setKey : List (String × Json) → String → Json → List (String × Json)
  | [], k, v => [(k, v)]
  | (k', v') :: rest, k, v =>
    if k' = k then (k, v) :: rest else (k', v') :: setKey rest k v

/-- JavaScript `delete o[k]` on a plain object. -/
def removeKey (fs : List (String × Json)) (k : String) : List (String × Json) :=
  fs.filter (fun p => p.1 ≠ k)

/-- `delete v[k]` as used by `put` (only ever applied to objects there). -/
def jsDelete (v : Json) (k : String) : Json :=
  match v with
  | .obj fs => .obj (removeKey fs k)
  | x => x

/-- The `shallow-copy` collaborator: a new top-level object/array with the
same entries (values shared).  In this pure model the copy is the same
value; what matters is that `put` applies its `delete`s to the copy
binding, never to the caller's binding. -/
def shallowCopy (v : Json) : Json := v

/-- JavaScript strict equality `===` restricted to the values of the model:
structural on primitives; two distinct object or array values are never
identical (reference equality). -/
def jsStrictEq : Json → Json → Bool
  | .null, .null => true
  | .undef, .undef => true
  | .bool a, .bool b => a == b
  | .num a, .num b => a == b
  | .str a, .str b => a == b
  | _, _ => false

/-- `msg.match(/HTTP Error 404/)` as a substring test (on the underlying
character lists). -/
def strContains (s pat : String) : Bool :=
  decide (pat.toList <:+: s.toList)

/-- The enumerable own keys of a value, as `Object.keys` sees them:
object fields in insertion order, array elements under their index keys,
nothing for primitives. -/
def jsFieldsOf : Json → List (String × Json)
  | .obj fs => fs
  | .arr xs => (xs.enum.map (fun p => (toString p.1, p.2)))
  | _ => []

/-- `deepmerge` recurses into values that are plain objects or arrays. -/
def isMergeable : Json → Bool
  | .obj _ => true
  | .arr _ => true
  | _ => false

theorem lookupField_some_mem {fs : List (String × Json)} {k : String} {v : Json}
    (h : lookupField fs k = some v) : (k, v) ∈ fs := by
  induction fs with
  | nil => simp [lookupField] at h
  | cons p rest ih =>
    obtain ⟨k', v'⟩ := p
    rw [lookupField] at h
    split at h
    · next hk =>
      injection h with h2
      subst hk; subst h2
      exact List.mem_cons_self _ _
    · exact List.mem_cons_of_mem _ (ih h)

theorem sizeOf_lookupField {fs : List (String × Json)} {k : String} {v : Json}
    (h : lookupField fs k = some v) : sizeOf v < sizeOf fs := by
  have hm := List.sizeOf_lt_of_mem (lookupField_some_mem h)
  simp only [Prod.mk.sizeOf_spec] at hm
  omega

theorem sizeOf_jsGet {t : Json} {k : String} {v : Json}
    (h : jsGet t k = some v) : sizeOf v < sizeOf t := by
  cases t with
  | obj fs =>
    simp only [jsGet] at h
    have := sizeOf_lookupField h
    simp only [Json.obj.sizeOf_spec]
    omega
  | arr xs =>
    simp only [jsGet] at h
    cases hk : k.toNat? with
    | none => rw [hk] at h; cases h
    | some i =>
      rw [hk] at h
      have hm := List.sizeOf_lt_of_mem (List.get?_mem h)
      simp only [Json.arr.sizeOf_spec]
      omega
  | null => simp [jsGet] at h
  | undef => simp [jsGet] at h
  | bool b => simp [jsGet] at h
  | num n => simp [jsGet] at h
  | str s => simp [jsGet] at h

/-- `target[i]` for an array target in `defaultArrayMerge`: the element when
the index is in range, JavaScript `undefined` otherwise. -/
def getOrUndef (l : List Json) (i : Nat) : Json :=
  match l.get? i with
  | some t => t
  | none => .undef

theorem sizeOf_getOrUndef (l : List Json) (i : Nat) : sizeOf (getOrUndef l i) ≤ sizeOf l := by
  cases hg : l.get? i with
  | none =>
    have he : getOrUndef l i = .undef := by unfold getOrUndef; rw [hg]
    rw [he]
    cases l with
    | nil => simp
    | cons a as => simp only [Json.undef.sizeOf_spec, List.cons.sizeOf_spec]; omega
  | some t =>
    have he : getOrUndef l i = t := by unfold getOrUndef; rw [hg]
    rw [he]
    have := List.sizeOf_lt_of_mem (List.get?_mem hg)
    omega

mutual

/-- The `deepmerge` collaborator (v1 semantics) over plain JSON-like
structures, as consumed by `update` and `replace`.  An array source merges
element-wise into an array target (`defaultArrayMerge`) and replaces any
other target; otherwise the result is a fresh object holding the target's
enumerable fields (when the target is mergeable) overlaid with the source's
fields, merging recursively exactly when the source field is mergeable and
the target's field is truthy. -/
def deepMerge (target source : Json) : Json :=
  match source with
  | .arr xs =>
    match target with
    | .arr ys => .arr (arrayMergeLoop ys ys xs 0)
    | _ => .arr xs
  | .obj fs => .obj (mergeFields target (jsFieldsOf target) fs)
  | .null => .obj (mergeFields target (jsFieldsOf target) [])
  | .undef => .obj (mergeFields target (jsFieldsOf target) [])
  | .bool _ => .obj (mergeFields target (jsFieldsOf target) [])
  | .num _ => .obj (mergeFields target (jsFieldsOf target) [])
  | .str _ => .obj (mergeFields target (jsFieldsOf target) [])
termination_by sizeOf target + sizeOf source + 2
decreasing_by
  all_goals simp only [Json.arr.sizeOf_spec, Json.obj.sizeOf_spec, Json.null.sizeOf_spec,
    Json.undef.sizeOf_spec, Json.bool.sizeOf_spec, Json.num.sizeOf_spec, Json.str.sizeOf_spec,
    jsFieldsOf, List.nil.sizeOf_spec]
  all_goals omega

/-- `mergeObject`'s `Object.keys(source).forEach` loop: overlay each source
field onto the destination, recursing when the source value is mergeable
and the target's corresponding field is truthy. -/
def mergeFields (target : Json) (dest : List (String × Json)) :
    List (String × Json) → List (String × Json)
  | [] => dest
  | (k, v) :: rest =>
    let newV :=
      match htv : jsGet target k with
      | none => v
      | some tv => if isMergeable v && jsTruthy tv then deepMerge tv v else v
    mergeFields target (setKey dest k newV) rest
termination_by src => sizeOf target + sizeOf src
decreasing_by
  all_goals simp only [List.cons.sizeOf_spec, Prod.mk.sizeOf_spec]
  · have := sizeOf_jsGet htv; omega
  · omega

/-- `defaultArrayMerge`'s loop: `destination` starts as a copy of the
target; for each source element at index `i`, fill a missing slot, merge a
mergeable element with the target's element, or push an element the target
does not already contain.  (`indexOf` uses `===`, which never identifies
two distinct object/array values, see `jsStrictEq`; an absent
`target[i]` is modelled as `undef`.) -/
def arrayMergeLoop (targetOrig dest src : List Json) (i : Nat) : List Json :=
  match src with
  | [] => dest
  | e :: rest =>
    let dest' :=
      if i < dest.length then
        if isMergeable e then
          dest.set i (deepMerge (getOrUndef targetOrig i) e)
        else if targetOrig.any (fun t => jsStrictEq t e) then dest
        else dest ++ [e]
      else dest ++ [e]
    arrayMergeLoop targetOrig dest' rest (i + 1)
termination_by sizeOf targetOrig + sizeOf src + 1
decreasing_by
  all_goals simp only [List.cons.sizeOf_spec, List.nil.sizeOf_spec, Prod.mk.sizeOf_spec]
  · have := sizeOf_getOrUndef targetOrig i
    cases rest with
    | nil => simp only [List.nil.sizeOf_spec]; omega
    | cons b bs => simp only [List.cons.sizeOf_spec]; omega
  · omega

end

mutual

/-- The `deep-eql` collaborator: structural deep equality over plain
JSON-like values.  Primitives compare by value; arrays compare pointwise;
objects compare by key count together with every field of the left object
being present in the right with a deeply-equal value (key order is
irrelevant, duplicate keys do not occur in values originating from
JavaScript objects). -/
def deepEqual (a b : Json) : Bool :=
  match a, b with
  | .null, .null => true
  | .undef, .undef => true
  | .bool x, .bool y => x == y
  | .num x, .num y => x == y
  | .str x, .str y => x == y
  | .arr xs, .arr ys => deepEqualList xs ys
  | .obj fs, .obj gs => fs.length == gs.length && deepEqualFields fs gs
  | _, _ => false
termination_by sizeOf a + sizeOf b
decreasing_by all_goals (simp only [Json.arr.sizeOf_spec, Json.obj.sizeOf_spec]; omega)

/-- Element-wise array comparison of `deep-eql`. -/
def deepEqualList (xs ys : List Json) : Bool :=
  match xs, ys with
  | [], [] => true
  | x :: xr, y :: yr => deepEqual x y && deepEqualList xr yr
  | _, _ => false
termination_by sizeOf xs + sizeOf ys
decreasing_by all_goals (simp only [List.cons.sizeOf_spec]; omega)

/-- Every field of `fs` appears in `gs` (first occurrence) with a
deeply-equal value. -/
def deepEqualFields (fs gs : List (String × Json)) : Bool :=
  match fs with
  | [] => true
  | (k, v) :: rest => findDeepEq k v gs && deepEqualFields rest gs
termination_by sizeOf fs + sizeOf gs
decreasing_by all_goals (simp only [List.cons.sizeOf_spec, Prod.mk.sizeOf_spec]; omega)

/-- Search `gs` for key `k` and compare its value deeply with `v`. -/
def findDeepEq (k : String) (v : Json) (gs : List (String × Json)) : Bool :=
  match gs with
  | [] => false
  | (k2, w) :: rest => if k2 = k then deepEqual v w else findDeepEq k v rest
termination_by sizeOf v + sizeOf gs
decreasing_by all_goals (simp only [List.cons.sizeOf_spec, Prod.mk.sizeOf_spec]; omega)

end

mutual

/-- Plain structural (order-sensitive) equality test on `Json`, used only
on the specification side of refinement statements (e.g. comparing
revision tokens). -/
def jsonBEq (a b : Json) : Bool :=
  match a, b with
  | .null, .null => true
  | .undef, .undef => true
  | .bool x, .bool y => x == y
  | .num x, .num y => x == y
  | .str x, .str y => x == y
  | .arr xs, .arr ys => jsonBEqList xs ys
  | .obj fs, .obj gs => jsonBEqFields fs gs
  | _, _ => false
termination_by sizeOf a + sizeOf b
decreasing_by all_goals (simp only [Json.arr.sizeOf_spec, Json.obj.sizeOf_spec]; omega)

/-- Pointwise structural equality on lists of values. -/
def jsonBEqList (xs ys : List Json) : Bool :=
  match xs, ys with
  | [], [] => true
  | x :: xr, y :: yr => jsonBEq x y && jsonBEqList xr yr
  | _, _ => false
termination_by sizeOf xs + sizeOf ys
decreasing_by all_goals (simp only [List.cons.sizeOf_spec]; omega)

/-- Pointwise structural equality on field lists. -/
def jsonBEqFields (fs gs : List (String × Json)) : Bool :=
  match fs, gs with
  | [], [] => true
  | (k, v) :: fr, (k2, w) :: gr => k == k2 && jsonBEq v w && jsonBEqFields fr gr
  | _, _ => false
termination_by sizeOf fs + sizeOf gs
decreasing_by all_goals (simp only [List.cons.sizeOf_spec, Prod.mk.sizeOf_spec]; omega)

end

/-- Structural equality on possibly-absent values. -/
def optJsonBEq : Option Json → Option Json → Bool
  | none, none => true
  | some a, some b => jsonBEq a b
  | _, _ => false

/-! ## `db.put` (`src/lib/db.js` 67–102, later revision 63–96) -/

/-- The HTTP request assembled by `db.prototype.put`, together with the
caller-visible state of the argument object after the call.  `docId = some
id` models `PUT {db}/{id}`; `none` models `POST {db}` (server assigns the
ID).  `body` is the value serialized as the wire body (`JSON.stringify`
drops `undef`-valued fields, which never arise on this path). -/
structure PutRequest where
  method : String
  docId : Option Json
  ifMatch : Option Json
  body : Json
  callerValue : Json

/-- `db.prototype.put`: validate, take a shallow copy of the caller's
object, move a truthy `_rev` into the `If-Match` header and delete it from
the copy, always delete `_id` from the copy, and send the copy as the
body.  The two `throw new Error(...)` validations are modelled by
`Except.error`.  All property deletions act on the copy binding
(`valueCopy`), never on the caller's binding (`value`). -/
def put (value : Json) : Except String PutRequest :=
  if !jsTruthy value then .error "rxCouch.db.put: missing document value"
  else if !isObjType value then .error "rxCouch.db.put: invalid document value"
  else
    let valueCopy := shallowCopy value
    let docId := jsGet valueCopy "_id"
    let method := if truthyOpt docId then "put" else "post"
    let withRev :=
      if truthyOpt (jsGet valueCopy "_rev") then
        (jsGet valueCopy "_rev", jsDelete valueCopy "_rev")
      else (none, valueCopy)
    let valueCopy2 := jsDelete withRev.2 "_id"
    .ok { method := method
          docId := if truthyOpt docId then docId else none
          ifMatch := withRev.1
          body := valueCopy2
          callerValue := value }

/-! ## `db.update` and `db.replace` (later revision, lines 114–230) -/

/-- The JSON object `{id, ok: true, rev: ..., noop: true}` built by the
no-op short-circuit of `update`/`replace`; `rev = none` models
`rev: undefined` (the placeholder document has no `_rev`). -/
structure NoopResult where
  id : Json
  ok : Bool
  rev : Option Json
  noop : Bool

/-- What an `update`/`replace` invocation does once the initial fetch has
completed: throw synchronously during validation, propagate the fetch
error, emit the no-op result without writing, or delegate to `put` with
the candidate new value. -/
inductive UpdateAction where
  | throwErr (msg : String)
  | propagateError (msg : String)
  | emitNoop (res : NoopResult)
  | doPut (candidate : Json)

/-- Shared tail of `update`/`replace`: resolve the fetched old value,
substituting the `{_id}` placeholder exactly when the error message
matches `/HTTP Error 404/`, then hand the old value to the merge phase.
`idv` has already been validated as truthy, and `db.get`'s own validation
restricts it to a non-empty string before any fetch happens. -/
def resolveFetched (idv : Json) (fetched : Except String Json)
    (phase : Json → UpdateAction) : UpdateAction :=
  match idv with
  | .str _ =>
    match fetched with
    | .ok oldValue => phase oldValue
    | .error m =>
      if strContains m "HTTP Error 404" then phase (.obj [("_id", idv)])
      else .propagateError m
  | _ => .throwErr "rxCouch.db.get: invalid document ID"

/-- `db.prototype.update`: validate (`value` truthy object with truthy
`_id` and no truthy `_rev`), fetch the current value (404 becomes the
`{_id}` placeholder), deep-merge the caller's fields into it, and either
short-circuit with `{id, ok, rev, noop}` when the merge is deeply equal
to the old value, or `put` the merged value. -/
def update (value : Json) (fetched : Except String Json) : UpdateAction :=
  if !jsTruthy value then .throwErr "rxCouch.db.update: missing document value"
  else if !isObjType value then .throwErr "rxCouch.db.update: invalid document value"
  else if !truthyOpt (jsGet value "_id") then .throwErr "rxCouch.db.update: _id is missing"
  else if truthyOpt (jsGet value "_rev") then .throwErr "rxCouch.db.update: _rev is not allowed"
  else
    match jsGet value "_id" with
    | none => .throwErr "rxCouch.db.update: _id is missing"
    | some idv =>
      resolveFetched idv fetched (fun oldValue =>
        let newValue := deepMerge oldValue value
        if deepEqual oldValue newValue then
          .emitNoop { id := idv, ok := true, rev := jsGet oldValue "_rev", noop := true }
        else .doPut (deepMerge oldValue value))

/-- `db.prototype.replace`: same validations and fetch as `update`, but
the candidate is the caller's object with the existing `_rev` attached
(`deepMerge(value, {_rev: oldValue._rev})`) rather than a merge into the
old value. -/
def replace (value : Json) (fetched : Except String Json) : UpdateAction :=
  if !jsTruthy value then .throwErr "rxCouch.db.replace: missing document value"
  else if !isObjType value then .throwErr "rxCouch.db.replace: invalid document value"
  else if !truthyOpt (jsGet value "_id") then .throwErr "rxCouch.db.replace: _id is missing"
  else if truthyOpt (jsGet value "_rev") then .throwErr "rxCouch.db.replace: _rev is not allowed"
  else
    match jsGet value "_id" with
    | none => .throwErr "rxCouch.db.replace: _id is missing"
    | some idv =>
      resolveFetched idv fetched (fun oldValue =>
        let newValue := deepMerge value
          (.obj [("_rev", (jsGet oldValue "_rev").getD .undef)])
        if deepEqual oldValue newValue then
          .emitNoop { id := idv, ok := true, rev := jsGet oldValue "_rev", noop := true }
        else .doPut newValue)

/-! ## `db.changes` (later revision, lines 352–399) -/

/-- `String(x)` as used by `Array.prototype.join`: elements are converted
with `toString`, except that `null` and `undefined` join as the empty
string. -/
def jsJoinElemStr : Json → String
  | .null => ""
  | .undef => ""
  | .bool b => if b then "true" else "false"
  | .num n => toString n
  | .str s => s
  | .arr xs => String.intercalate "," (xs.attach.map (fun x => jsJoinElemStr x.1))
  | .obj _ => "[object Object]"
termination_by v => sizeOf v
decreasing_by
  have := List.sizeOf_lt_of_mem x.2
  simp only [Json.arr.sizeOf_spec]
  omega

/-- The option-fixing loop of `changes`: every array-valued option is
serialized as the string `'["' + value.join('","') + '"]'`; all other
values pass through. -/
def fixOptions (v : Json) : List (String × Json) :=
  (jsFieldsOf v).map (fun p =>
    (p.1, match p.2 with
      | .arr xs => .str ("[\"" ++ String.intercalate "\",\"" (xs.map jsJoinElemStr) ++ "\"]")
      | x => x))

/-- What a `changes(options)` call does before any network traffic: throw
synchronously, start a single fetch (`once`, with `none` when the falsy or
absent options contribute no query string), or enter the long-poll loop
with the fixed options as the initial query. -/
inductive ChangesCall where
  | throwErr (msg : String)
  | once (fixedOptions : Option (List (String × Json)))
  | longpoll (fixedOptions : List (String × Json))

/-- `db.prototype.changes` up to its first fetch: reject truthy non-object
options, reject `feed: 'continuous'`, fix array-valued options, and pick
one-shot versus long-poll mode.  (`options.feed === 'longpoll'` and
`=== 'continuous'` are strict string comparisons.) -/
def changes (options : Option Json) : ChangesCall :=
  match options with
  | none => .once none
  | some v =>
    if jsTruthy v && !isObjType v then
      .throwErr "rxCouch.db.changes: options must be an object"
    else if jsTruthy v && jsStrictEq ((jsGet v "feed").getD .undef) (.str "continuous") then
      .throwErr "rxCouch.db.changes: feed: \"continuous\" not supported"
    else if !jsTruthy v then .once none
    else if jsStrictEq ((jsGet v "feed").getD .undef) (.str "longpoll") then
      .longpoll (fixOptions v)
    else .once (some (fixOptions v))

/-- One decoded `_changes` response: the `results` array (opaque change
records) and the terminal `last_seq` marker. -/
structure ChangesResponse where
  results : List Json
  last_seq : Json

/-- The long-poll loop of `changes` (`getChangesContinuously`), run
against the finite prefix of server responses received before the caller
cancels.  Each cycle issues one fetch with the current fixed options and,
once the response arrives, the `tap` stores `response.last_seq` into
`fixedOptions.since` before the next deferred cycle fetches again; the
cycle's emissions are the elements of `response.results` in order.  The
result lists, per cycle, the query options the fetch was issued with and
the records emitted for that response. -/
def longpollRun (qs : List (String × Json)) :
    List ChangesResponse → List (List (String × Json) × List Json)
  | [] => []
  | r :: rs => (qs, r.results) :: longpollRun (setKey qs "since" r.last_seq) rs

/-! ## `db.observe` (later revision, lines 416–466) and its per-handle
state -/

/-- The `{_id: id, _empty: true}` placeholder substituted when the initial
`get` of the observed document fails. -/
def placeholderDoc (id : String) : Json :=
  .obj [("_id", .str id), ("_empty", .bool true)]

/-- The predicate of `observe`'s final `.filter`: a document passes unless
its `_id` is not strictly equal to the observed ID, or `previousRev` is
truthy and strictly equal to the document's `_rev`. -/
def observeFilterPred (id : String) (previousRev : Option Json) (doc : Json) : Bool :=
  !(!jsStrictEq ((jsGet doc "_id").getD .undef) (.str id)
    || (truthyOpt previousRev
        && jsStrictEq (previousRev.getD .undef) ((jsGet doc "_rev").getD .undef)))

/-- Running `observe`'s `.filter` over a stream of documents: emitted
documents update `previousRev` to their own `_rev`; dropped documents
leave it unchanged. -/
def observeFilterRun (id : String) (previousRev : Option Json) : List Json → List Json
  | [] => []
  | d :: ds =>
    if observeFilterPred id previousRev d then
      d :: observeFilterRun id (jsGet d "_rev") ds
    else observeFilterRun id previousRev ds

/-- A finite observed prefix of one change feed, already mapped to its
documents (`update => update.doc`): the documents it delivered, and the
error that terminated it, if any. -/
structure FeedRun where
  docs : List Json
  err? : Option String

/-- The collaborator responses consumed by one `observe(id)` call: the
result of the initial `get`, the run of the dedicated `_doc_ids`-filtered
feed (consulted only if the capability flag is unset), and the run of the
shared fallback feed. -/
structure ObserveInput where
  id : String
  fetched : Except String Json
  dedicated : FeedRun
  shared : FeedRun

/-- What one `observe` call delivers to its subscriber: the filtered
document stream, the error that terminates the subscription (if any), and
whether the dedicated `_doc_ids`-filtered feed was attempted. -/
structure ObserveOutput where
  docs : List Json
  err? : Option String
  usedDedicated : Bool

/-- The cross-call mutable state of a Database Handle touched by
`observe`: the sticky `_dbDoesNotSupportDocIdsFilter` capability flag. -/
structure DbState where
  dbDoesNotSupportDocIdsFilter : Bool

/-- One `observe(id)` call after ID validation.  The initial `get`'s
`.catch(Rx.Observable.just({_id: id, _empty: true}))` replaces any `get`
failure with the placeholder.  If the capability flag is set, the shared
fallback feed is used directly (and `noDocIdsFilterFallback` re-sets the
flag); otherwise the dedicated filtered feed runs, and if it fails, the
`.catch(Rx.Observable.defer(noDocIdsFilterFallback))` swallows the error,
sets the flag and continues with the shared feed.  The concatenation of
the initial value and the feed documents then passes through the
de-duplicating filter. -/
def observeCall (st : DbState) (inp : ObserveInput) : ObserveOutput × DbState :=
  let initial : Json :=
    match inp.fetched with
    | .ok d => d
    | .error _ => placeholderDoc inp.id
  if st.dbDoesNotSupportDocIdsFilter then
    ({ docs := observeFilterRun inp.id none (initial :: inp.shared.docs)
       err? := inp.shared.err?
       usedDedicated := false },
     { dbDoesNotSupportDocIdsFilter := true })
  else
    match inp.dedicated.err? with
    | none =>
      ({ docs := observeFilterRun inp.id none (initial :: inp.dedicated.docs)
         err? := none
         usedDedicated := true },
       { dbDoesNotSupportDocIdsFilter := false })
    | some _ =>
      ({ docs := observeFilterRun inp.id none
           (initial :: (inp.dedicated.docs ++ inp.shared.docs))
         err? := inp.shared.err?
         usedDedicated := true },
       { dbDoesNotSupportDocIdsFilter := true })

/-- `db.prototype.observe` including its synchronous ID validation. -/
def observe (st : DbState) (inp : ObserveInput) :
    Except String (ObserveOutput × DbState) :=
  if inp.id = "" then .error "rxCouch.db.observe: missing document ID"
  else .ok (observeCall st inp)

/-- A sequence of `observe` calls against the same Database Handle,
threading the per-handle state; a call rejected by validation leaves the
state untouched and produces no subscription. -/
def observeSeq (st : DbState) : List ObserveInput → List ObserveOutput × DbState
  | [] => ([], st)
  | inp :: rest =>
    match observe st inp with
    | .error _ => observeSeq st rest
    | .ok (out, st') =>
      let tail := observeSeq st' rest
      (out :: tail.1, tail.2)

/-- The de-duplication step as the specification words it: starting from
the concatenated stream, drop any record whose ID doesn't match the
observed ID and any record whose revision token is identical to the
immediately preceding emitted value's revision.  `prev = none` means no
value has been emitted yet; `prev = some r` records the previous emitted
value's (possibly absent) revision. -/
def specObserveDedup (id : String) (prev : Option (Option Json)) :
    List Json → List Json
  | [] => []
  | d :: ds =>
    if jsonBEq ((jsGet d "_id").getD .undef) (.str id)
        && !(match prev with
             | none => false
             | some r => optJsonBEq r (jsGet d "_rev")) then
      d :: specObserveDedup id (some (jsGet d "_rev")) ds
    else specObserveDedup id prev ds

/-! ## The server constructor (`src/lib/server.js`, lines 8–21) -/

/-- The fields of Node's legacy `url.parse` consumed by the constructor,
modelled for the URL shapes it can receive: `http(s)://` URLs (for which
an empty path parses as pathname `/`) and protocol-less strings (for
which the text before any `?`/`#` is the pathname).  `search` keeps its
leading `?` and is `none` when absent. -/
structure ParsedUrl where
  slashedProtocol : Bool
  protocol : Option String
  host : Option String
  pathname : Option String
  search : Option String

/-- Node's legacy `url.parse`, for the shapes above (computed on the
underlying character list). -/
def urlParse (s : String) : ParsedUrl :=
  let cs := s.toList
  if "http://".toList.isPrefixOf cs || "https://".toList.isPrefixOf cs then
    let isHttps := "https://".toList.isPrefixOf cs
    let rest := cs.drop (if isHttps then 8 else 7)
    let host := rest.takeWhile (fun c => c != '/' && c != '?' && c != '#')
    let after := rest.drop host.length
    let rawPath := after.takeWhile (fun c => c != '?' && c != '#')
    let afterPath := after.drop rawPath.length
    let rawSearch := afterPath.takeWhile (fun c => c != '#')
    { slashedProtocol := true
      protocol := some (if isHttps then "https:" else "http:")
      host := some (String.mk host)
      pathname := some (if rawPath.isEmpty then "/" else String.mk rawPath)
      search := if rawSearch.isEmpty then none else some (String.mk rawSearch) }
  else
    let rawPath := cs.takeWhile (fun c => c != '?' && c != '#')
    let afterPath := cs.drop rawPath.length
    let rawSearch := afterPath.takeWhile (fun c => c != '#')
    { slashedProtocol := false
      protocol := none
      host := none
      pathname := if rawPath.isEmpty then none else some (String.mk rawPath)
      search := if rawSearch.isEmpty then none else some (String.mk rawSearch) }

/-- `url.format` on a parsed URL, for the shapes above (no escaping is
needed for the URLs exercised here). -/
def urlFormat (p : ParsedUrl) : String :=
  if p.slashedProtocol then
    (p.protocol.getD "") ++ "//" ++ (p.host.getD "") ++ (p.pathname.getD "/")
      ++ (p.search.getD "")
  else (p.pathname.getD "") ++ (p.search.getD "")

/-- A constructed Server Reference: the normalized base URL. -/
structure ServerRef where
  baseUrl : String

/-- The `rxCouch` server constructor: default a falsy `baseUrl` to
`http://localhost:5984`, parse, reject when the parsed `pathname` is
truthy and differs from `/`, and store `url.format(parsedUrl)`.  (The
query string is never inspected.) -/
def serverConstructor (baseUrl : Option String) : Except String ServerRef :=
  let b := match baseUrl with
    | none => "http://localhost:5984"
    | some s => if s = "" then "http://localhost:5984" else s
  let parsedUrl := urlParse b
  match parsedUrl.pathname with
  | some pn =>
    if pn ≠ "/" then .error "CouchDB server must not contain a path or query string"
    else .ok { baseUrl := urlFormat parsedUrl }
  | none => .ok { baseUrl := urlFormat parsedUrl }

/-! ## Association-list lemmas -/

theorem lookupField_setKey_self (fs : List (String × Json)) (k : String) (v : Json) :
    lookupField (setKey fs k v) k = some v := by
  induction fs with
  | nil => simp [setKey, lookupField]
  | cons p rest ih =>
    obtain ⟨k', v'⟩ := p
    by_cases hk : k' = k
    · subst hk
      simp [setKey, lookupField]
    · simp [setKey, lookupField, hk, ih]

theorem lookupField_setKey_ne (fs : List (String × Json)) (k k' : String) (v : Json)
    (h : k' ≠ k) : lookupField (setKey fs k v) k' = lookupField fs k' := by
  have h2 : ¬k = k' := fun he => h he.symm
  induction fs with
  | nil => simp [setKey, lookupField, h2]
  | cons p rest ih =>
    obtain ⟨k2, v2⟩ := p
    by_cases hk : k2 = k
    · subst hk
      simp [setKey, lookupField, h2]
    · by_cases hk2 : k2 = k'
      · subst hk2
        simp [setKey, lookupField, hk]
      · simp [setKey, lookupField, hk, hk2, ih]

theorem isSome_lookupField_setKey (fs : List (String × Json)) (k k' : String) (v : Json)
    (h : (lookupField fs k').isSome) : (lookupField (setKey fs k v) k').isSome := by
  by_cases hk : k' = k
  · subst hk; simp [lookupField_setKey_self]
  · rw [lookupField_setKey_ne fs k k' v hk]; exact h

/-- Overlaying source fields never removes a key that the destination
already has. -/
theorem mergeFields_isSome (t : Json) (src : List (String × Json)) :
    ∀ (d : List (String × Json)) (k : String),
      (lookupField d k).isSome → (lookupField (mergeFields t d src) k).isSome := by
  induction src with
  | nil => intro d k h; rw [mergeFields]; exact h
  | cons p rest ih =>
    intro d k h
    obtain ⟨k2, v2⟩ := p
    rw [mergeFields]
    exact ih _ k (isSome_lookupField_setKey _ _ _ _ h)

theorem lookupField_removeKey_self (fs : List (String × Json)) (k : String) :
    lookupField (removeKey fs k) k = none := by
  induction fs with
  | nil => simp [removeKey, lookupField]
  | cons p rest ih =>
    obtain ⟨k', v'⟩ := p
    by_cases hk : k' = k
    · subst hk
      simpa [removeKey, lookupField] using ih
    · simpa [removeKey, lookupField, hk] using ih

theorem lookupField_removeKey_ne (fs : List (String × Json)) (k k' : String)
    (h : k' ≠ k) : lookupField (removeKey fs k) k' = lookupField fs k' := by
  have h2 : ¬k = k' := fun he => h he.symm
  induction fs with
  | nil => simp [removeKey, lookupField]
  | cons p rest ih =>
    obtain ⟨k2, v2⟩ := p
    by_cases hk : k2 = k
    · subst hk
      simpa [removeKey, lookupField, h2] using ih
    · by_cases hk2 : k2 = k'
      · subst hk2
        simp [removeKey, lookupField, hk]
      · simpa [removeKey, lookupField, hk, hk2] using ih

/-! ## Claim theorems -/

/-- **C3**: whenever the deep merge of the fetched existing document with
the caller's `value` is deeply equal to the existing document, `update`
short-circuits to `{id: value._id, ok: true, rev: <existing _rev>,
noop: true}` without delegating to `put` (the resulting action is
`emitNoop`, not `doPut`, so no write is issued and the document's revision
cannot change). -/
theorem update_noop_short_circuit (vfs : List (String × Json)) (old : Json) (s : String)
    (hs : s ≠ "")
    (hid : lookupField vfs "_id" = some (.str s))
    (hrev : truthyOpt (lookupField vfs "_rev") = false)
    (heq : deepEqual old (deepMerge old (.obj vfs)) = true) :
    update (.obj vfs) (.ok old)
      = .emitNoop { id := .str s, ok := true, rev := jsGet old "_rev", noop := true } := by
  have h3 : jsGet (.obj vfs) "_id" = some (.str s) := by simpa [jsGet] using hid
  have h4 : truthyOpt (jsGet (.obj vfs) "_id") = true := by
    rw [h3]; simp [truthyOpt, jsTruthy, hs]
  have h5 : truthyOpt (jsGet (.obj vfs) "_rev") = false := by simpa [jsGet] using hrev
  have h6 : truthyOpt (some (.str s)) = true := by simp [truthyOpt, jsTruthy, hs]
  simp only [update, jsTruthy, isObjType, Bool.not_true, Bool.false_eq_true, if_false,
    h3, h4, h5, h6, resolveFetched, heq, if_true]

/-- Witness for C3: updating `{_id:"X", foo:"bar"}` over an existing
`{_id:"X", _rev:"1-a", foo:"bar"}` returns the no-op result carrying the
existing revision. -/
theorem update_noop_short_circuit_witness :
    update (Json.obj [("_id", .str "X"), ("foo", .str "bar")])
        (.ok (Json.obj [("_id", .str "X"), ("_rev", .str "1-a"), ("foo", .str "bar")]))
      = .emitNoop { id := .str "X", ok := true, rev := some (.str "1-a"), noop := true } := by
  have h := update_noop_short_circuit [("_id", .str "X"), ("foo", .str "bar")]
    (Json.obj [("_id", .str "X"), ("_rev", .str "1-a"), ("foo", .str "bar")]) "X"
    (by decide) (by simp [lookupField]) (by simp [lookupField, truthyOpt])
    (by simp [deepMerge, mergeFields, jsFieldsOf, jsGet, lookupField, setKey, isMergeable,
          jsTruthy, deepEqual, deepEqualFields, findDeepEq, deepEqualList])
  simpa [jsGet, lookupField] using h

/-- **C10**: when `value` holds nothing but `_id` and the initial fetch
fails with not-found, the `{_id}` placeholder deep-merged with `value`
equals the placeholder itself, so `update` short-circuits to `{id, ok:
true, rev: undefined, noop: true}` (`rev := none`) without issuing any
write — the document is never created. -/
theorem update_missing_doc_noop (s m : String)
    (hs : s ≠ "")
    (hm : strContains m "HTTP Error 404" = true) :
    deepEqual (Json.obj [("_id", .str s)])
        (deepMerge (Json.obj [("_id", .str s)]) (Json.obj [("_id", .str s)])) = true
  ∧ update (Json.obj [("_id", .str s)]) (.error m)
      = .emitNoop { id := .str s, ok := true, rev := none, noop := true } := by
  have hmerge : deepMerge (Json.obj [("_id", .str s)]) (Json.obj [("_id", .str s)])
      = Json.obj [("_id", .str s)] := by
    simp [deepMerge, mergeFields, jsFieldsOf, jsGet, lookupField, setKey, isMergeable]
  have heq : deepEqual (Json.obj [("_id", .str s)])
      (deepMerge (Json.obj [("_id", .str s)]) (Json.obj [("_id", .str s)])) = true := by
    rw [hmerge]
    simp [deepEqual, deepEqualFields, findDeepEq]
  refine ⟨heq, ?_⟩
  have h6 : truthyOpt (some (Json.str s)) = true := by simp [truthyOpt, jsTruthy, hs]
  simp only [update, jsTruthy, isObjType, Bool.not_true, Bool.false_eq_true, if_false,
    jsGet, lookupField, if_pos rfl, h6, truthyOpt, resolveFetched, hm, if_true, heq]
  simp [lookupField, hs]

/-- Witness for C10: `update({_id:"x"})` against a 404 fetch yields the
no-op result with `rev: undefined`. -/
theorem update_missing_doc_noop_witness :
    update (Json.obj [("_id", .str "x")]) (.error "HTTP Error 404 (Object Not Found)")
      = .emitNoop { id := .str "x", ok := true, rev := none, noop := true } :=
  (update_missing_doc_noop "x" "HTTP Error 404 (Object Not Found)"
    (by decide) (by decide)).2

/-- Helper: with its validations satisfied and the fetch successful,
`replace` reduces to its merge phase. -/
theorem replace_eq_merge_phase (vfs : List (String × Json)) (old : Json) (s : String)
    (hs : s ≠ "")
    (hid : lookupField vfs "_id" = some (.str s))
    (hrev : truthyOpt (lookupField vfs "_rev") = false) :
    replace (.obj vfs) (.ok old)
      = (if deepEqual old (deepMerge (.obj vfs) (.obj [("_rev", (jsGet old "_rev").getD .undef)])) then
          .emitNoop { id := .str s, ok := true, rev := jsGet old "_rev", noop := true }
        else .doPut (deepMerge (.obj vfs) (.obj [("_rev", (jsGet old "_rev").getD .undef)]))) := by
  have h3 : jsGet (.obj vfs) "_id" = some (.str s) := by simpa [jsGet] using hid
  have h5 : truthyOpt (jsGet (.obj vfs) "_rev") = false := by simpa [jsGet] using hrev
  have h6 : truthyOpt (some (.str s)) = true := by simp [truthyOpt, jsTruthy, hs]
  simp only [replace, jsTruthy, isObjType, Bool.not_true, Bool.false_eq_true, if_false,
    h3, h5, h6, resolveFetched]

/-- Helper: with its validations satisfied and the fetch successful,
`update` reduces to its merge phase. -/
theorem update_eq_merge_phase (vfs : List (String × Json)) (old : Json) (s : String)
    (hs : s ≠ "")
    (hid : lookupField vfs "_id" = some (.str s))
    (hrev : truthyOpt (lookupField vfs "_rev") = false) :
    update (.obj vfs) (.ok old)
      = (if deepEqual old (deepMerge old (.obj vfs)) then
          .emitNoop { id := .str s, ok := true, rev := jsGet old "_rev", noop := true }
        else .doPut (deepMerge old (.obj vfs))) := by
  have h3 : jsGet (.obj vfs) "_id" = some (.str s) := by simpa [jsGet] using hid
  have h5 : truthyOpt (jsGet (.obj vfs) "_rev") = false := by simpa [jsGet] using hrev
  have h6 : truthyOpt (some (.str s)) = true := by simp [truthyOpt, jsTruthy, hs]
  simp only [update, jsTruthy, isObjType, Bool.not_true, Bool.false_eq_true, if_false,
    h3, h5, h6, resolveFetched]

/-- **C4**: a `replace` that performs a write puts exactly the caller's
object with the existing document's `_rev` attached: the candidate's
`_rev` is the old revision, every other key reads exactly as in the
caller's object (so any field of the existing document absent from the
caller's object is absent from the candidate), while `update` on the same
inputs writes a deep merge that keeps every key of the existing
document. -/
theorem replace_whole_document
    (vfs ofs : List (String × Json)) (s rs : String) (c : Json)
    (hs : s ≠ "")
    (hid : lookupField vfs "_id" = some (.str s))
    (hrev : truthyOpt (lookupField vfs "_rev") = false)
    (hold : lookupField ofs "_rev" = some (.str rs))
    (hput : replace (.obj vfs) (.ok (.obj ofs)) = .doPut c) :
    jsGet c "_rev" = some (.str rs)
  ∧ (∀ k, k ≠ "_rev" → jsGet c k = lookupField vfs k)
  ∧ (∀ c', update (.obj vfs) (.ok (.obj ofs)) = .doPut c' →
      ∀ k, (lookupField ofs k).isSome → (jsGet c' k).isSome) := by
  have hsrc : (jsGet (Json.obj ofs) "_rev").getD .undef = .str rs := by simp [jsGet, hold]
  have hnewV : deepMerge (.obj vfs) (.obj [("_rev", Json.str rs)])
      = .obj (setKey vfs "_rev" (.str rs)) := by
    simp only [deepMerge, mergeFields, jsFieldsOf, isMergeable, Bool.false_and,
      Bool.if_false_left]
    split <;> rfl
  rw [replace_eq_merge_phase vfs (.obj ofs) s hs hid hrev, hsrc, hnewV] at hput
  have hc : c = .obj (setKey vfs "_rev" (.str rs)) := by
    by_cases hde : deepEqual (Json.obj ofs) (Json.obj (setKey vfs "_rev" (.str rs))) = true
    · rw [if_pos hde] at hput; cases hput
    · rw [if_neg hde] at hput
      injection hput with h
      exact h.symm
  subst hc
  refine ⟨?_, ?_, ?_⟩
  · simp [jsGet, lookupField_setKey_self]
  · intro k hk
    simp [jsGet, lookupField_setKey_ne vfs "_rev" k _ hk]
  · intro c' hup k hsome
    rw [update_eq_merge_phase vfs (.obj ofs) s hs hid hrev] at hup
    have hc' : c' = deepMerge (.obj ofs) (.obj vfs) := by
      by_cases hde : deepEqual (Json.obj ofs) (deepMerge (.obj ofs) (.obj vfs)) = true
      · rw [if_pos hde] at hup; cases hup
      · rw [if_neg hde] at hup
        injection hup with h
        exact h.symm
    subst hc'
    have : deepMerge (.obj ofs) (.obj vfs) = .obj (mergeFields (.obj ofs) ofs vfs) := by
      simp [deepMerge, jsFieldsOf]
    rw [this]
    simpa [jsGet] using mergeFields_isSome (.obj ofs) vfs ofs k hsome

/-- Witness for C4: `replace({_id:"X", flip:"baz"})` over
`{_id:"X", _rev:"1-a", foo:"bar"}` writes a candidate whose `_rev` is
`1-a` and in which `foo` is absent. -/
theorem replace_whole_document_witness :
    jsGet (Json.obj [("_id", Json.str "X"), ("flip", Json.str "baz"), ("_rev", Json.str "1-a")]) "_rev"
      = some (Json.str "1-a")
  ∧ jsGet (Json.obj [("_id", Json.str "X"), ("flip", Json.str "baz"), ("_rev", Json.str "1-a")]) "foo"
      = none := by
  have h := replace_whole_document [("_id", .str "X"), ("flip", .str "baz")]
      [("_id", .str "X"), ("_rev", .str "1-a"), ("foo", .str "bar")] "X" "1-a"
      (Json.obj [("_id", .str "X"), ("flip", .str "baz"), ("_rev", .str "1-a")])
      (by decide) (by simp [lookupField]) (by simp [lookupField, truthyOpt])
      (by simp [lookupField])
      (by simp [replace, resolveFetched, deepMerge, mergeFields, jsFieldsOf, jsGet,
            lookupField, setKey, isMergeable, jsTruthy, truthyOpt, isObjType, deepEqual,
            deepEqualFields, findDeepEq, deepEqualList])
  refine ⟨h.1, ?_⟩
  have h2 := h.2.1 "foo" (by decide)
  simpa [lookupField] using h2

/-- **C7**: `put` leaves the caller's object untouched — it operates on a
shallow copy, so the returned `callerValue` is exactly the input object —
while the wire body has `_id` stripped always and `_rev` stripped after
being moved into the `If-Match` header (revision tokens are non-empty
strings, so a present `_rev` is truthy); every other field of the body
reads exactly as in the caller's object, and nothing is injected into the
caller's object. -/
theorem put_does_not_mutate_caller (fs : List (String × Json)) (req : PutRequest)
    (hrev : lookupField fs "_rev" = none
      ∨ ∃ rs, rs ≠ "" ∧ lookupField fs "_rev" = some (.str rs))
    (hp : put (.obj fs) = .ok req) :
    req.callerValue = .obj fs
  ∧ jsGet req.body "_id" = none
  ∧ jsGet req.body "_rev" = none
  ∧ (∀ k, k ≠ "_id" → k ≠ "_rev" → jsGet req.body k = lookupField fs k)
  ∧ req.ifMatch = lookupField fs "_rev" := by
  have hbody : put (.obj fs) = .ok
      { method := if truthyOpt (lookupField fs "_id") then "put" else "post"
        docId := if truthyOpt (lookupField fs "_id") then lookupField fs "_id" else none
        ifMatch := if truthyOpt (lookupField fs "_rev") then lookupField fs "_rev" else none
        body := jsDelete (if truthyOpt (lookupField fs "_rev")
          then jsDelete (.obj fs) "_rev" else .obj fs) "_id"
        callerValue := .obj fs } := by
    simp only [put, jsTruthy, isObjType, Bool.not_true, Bool.false_eq_true, if_false,
      shallowCopy, jsGet]
    split <;> split <;> rfl
  rw [hbody] at hp
  injection hp with hp
  subst hp
  refine ⟨rfl, ?_, ?_, ?_, ?_⟩
  · by_cases ht : truthyOpt (lookupField fs "_rev") = true
    · simp [ht, jsDelete, jsGet, lookupField_removeKey_self]
    · simp [Bool.not_eq_true] at ht
      simp [ht, jsDelete, jsGet, lookupField_removeKey_self]
  · by_cases ht : truthyOpt (lookupField fs "_rev") = true
    · simp only [ht, if_true, jsDelete, jsGet]
      rw [lookupField_removeKey_ne _ "_id" "_rev" (by decide)]
      exact lookupField_removeKey_self fs "_rev"
    · simp [Bool.not_eq_true] at ht
      simp only [ht, Bool.false_eq_true, if_false, jsDelete, jsGet]
      rw [lookupField_removeKey_ne _ "_id" "_rev" (by decide)]
      rcases hrev with h | h
      · exact h
      · obtain ⟨rs, hrs, h2⟩ := h
        rw [h2] at ht
        simp [truthyOpt, jsTruthy, hrs] at ht
  · intro k hki hkr
    by_cases ht : truthyOpt (lookupField fs "_rev") = true
    · simp only [ht, if_true, jsDelete, jsGet]
      rw [lookupField_removeKey_ne _ "_id" k hki, lookupField_removeKey_ne _ "_rev" k hkr]
    · simp [Bool.not_eq_true] at ht
      simp only [ht, Bool.false_eq_true, if_false, jsDelete, jsGet]
      rw [lookupField_removeKey_ne _ "_id" k hki]
  · by_cases ht : truthyOpt (lookupField fs "_rev") = true
    · simp [ht]
    · simp [Bool.not_eq_true] at ht
      simp only [ht, Bool.false_eq_true, if_false]
      rcases hrev with h | h
      · exact h.symm
      · obtain ⟨rs, hrs, h2⟩ := h
        rw [h2] at ht
        simp [truthyOpt, jsTruthy, hrs] at ht

/-- Witness for C7: `put({_id:"X", _rev:"1-a", foo:"bar"})` assembles a
`PUT` with `If-Match: 1-a`, body `{foo:"bar"}` (no `_id`, no `_rev`) and
an unchanged caller object. -/
theorem put_does_not_mutate_caller_witness :
    ({ method := "put", docId := some (Json.str "X"), ifMatch := some (Json.str "1-a")
       body := Json.obj [("foo", Json.str "bar")]
       callerValue := Json.obj [("_id", Json.str "X"), ("_rev", Json.str "1-a"),
         ("foo", Json.str "bar")] : PutRequest }).callerValue
      = Json.obj [("_id", Json.str "X"), ("_rev", Json.str "1-a"), ("foo", Json.str "bar")]
  ∧ jsGet (Json.obj [("foo", Json.str "bar")]) "_id" = none
  ∧ jsGet (Json.obj [("foo", Json.str "bar")]) "_rev" = none := by
  have hp : put (Json.obj [("_id", Json.str "X"), ("_rev", Json.str "1-a"),
      ("foo", Json.str "bar")])
      = .ok { method := "put", docId := some (Json.str "X"), ifMatch := some (Json.str "1-a")
              body := Json.obj [("foo", Json.str "bar")]
              callerValue := Json.obj [("_id", Json.str "X"), ("_rev", Json.str "1-a"),
                ("foo", Json.str "bar")] } := by rfl
  have h := put_does_not_mutate_caller
    [("_id", Json.str "X"), ("_rev", Json.str "1-a"), ("foo", Json.str "bar")] _
    (Or.inr ⟨"1-a", by decide, rfl⟩) hp
  exact ⟨h.1, h.2.1, h.2.2.1⟩

theorem longpollRun_length (qs : List (String × Json)) (rs : List ChangesResponse) :
    (longpollRun qs rs).length = rs.length := by
  induction rs generalizing qs with
  | nil => rfl
  | cons r rest ih => simp [longpollRun, ih]

theorem longpollRun_map_snd (qs : List (String × Json)) (rs : List ChangesResponse) :
    (longpollRun qs rs).map Prod.snd = rs.map ChangesResponse.results := by
  induction rs generalizing qs with
  | nil => rfl
  | cons r rest ih => simp [longpollRun, ih]

theorem longpollRun_get?_fst_succ (qs : List (String × Json)) (rs : List ChangesResponse)
    (i : Nat) (h : i + 1 < rs.length) :
    ((longpollRun qs rs).get? (i+1)).map Prod.fst
      = ((longpollRun qs rs).get? i).map
          (fun p => setKey p.1 "since" (rs.get ⟨i, by omega⟩).last_seq) := by
  induction rs generalizing qs i with
  | nil => simp at h
  | cons r rest ih =>
    cases i with
    | zero =>
      have hlen : 0 < rest.length := by simp at h; omega
      cases rest with
      | nil => simp at hlen
      | cons r2 rest2 => simp [longpollRun, List.get]
    | succ j =>
      have h' : j + 1 < rest.length := by simp at h; omega
      simpa [longpollRun] using ih (setKey qs "since" r.last_seq) j h'

theorem longpollRun_take (qs : List (String × Json)) (rs rs' : List ChangesResponse) :
    (longpollRun qs (rs ++ rs')).take rs.length = longpollRun qs rs := by
  induction rs generalizing qs with
  | nil => simp [longpollRun]
  | cons r rest ih => simp [longpollRun, ih]

/-- **C1**: in long-poll mode (`options.feed === 'longpoll'`, which makes
`changes` return the continuous loop seeded with the fixed options), the
loop issues exactly one fetch per received response and keeps going after
every response (prefix stability over any further responses `rs'`); each
cycle emits exactly that response's `results` in order (so a zero-result
timeout emits zero records and the loop continues); and the fetch of
cycle `i + 1` is issued with the cycle-`i` options updated by storing the
cycle-`i` response's `last_seq` into `since` — in particular cycle
`i + 1`'s fetch is determined by (and so issued only after) response `i`. -/
theorem changes_longpoll_loop (qs : List (String × Json)) (rs rs' : List ChangesResponse)
    (i : Nat) (hi : i + 1 < rs.length) :
    (∀ v : Json, jsGet v "feed" = some (.str "longpoll") → isObjType v = true →
      changes (some v) = .longpoll (fixOptions v))
  ∧ (longpollRun qs rs).map Prod.snd = rs.map ChangesResponse.results
  ∧ ((longpollRun qs rs).get ⟨i + 1, by rw [longpollRun_length]; exact hi⟩).1
      = setKey ((longpollRun qs rs).get ⟨i, by rw [longpollRun_length]; omega⟩).1
          "since" (rs.get ⟨i, by omega⟩).last_seq
  ∧ (longpollRun qs (rs ++ rs')).take rs.length = longpollRun qs rs
  ∧ (longpollRun qs rs).length = rs.length := by
  refine ⟨?_, longpollRun_map_snd qs rs, ?_, longpollRun_take qs rs rs',
    longpollRun_length qs rs⟩
  · intro v hfeed hobj
    cases v with
    | obj fs =>
      simp only [changes, jsTruthy, hobj, Bool.not_true, Bool.and_false, Bool.false_and]
      rw [show jsGet (Json.obj fs) "feed" = some (.str "longpoll") from hfeed]
      simp [jsStrictEq]
    | arr xs =>
      simp only [changes, jsTruthy, hobj, Bool.not_true, Bool.and_false, Bool.false_and]
      rw [show jsGet (Json.arr xs) "feed" = some (.str "longpoll") from hfeed]
      simp [jsStrictEq]
    | null => simp [jsGet] at hfeed
    | undef => simp [isObjType] at hobj
    | bool b => simp [isObjType] at hobj
    | num n => simp [isObjType] at hobj
    | str s => simp [isObjType] at hobj
  · have h1 : i + 1 < (longpollRun qs rs).length := by rw [longpollRun_length]; exact hi
    have h2 : i < (longpollRun qs rs).length := by omega
    have h := longpollRun_get?_fst_succ qs rs i hi
    rw [List.get?_eq_get h1, List.get?_eq_get h2] at h
    simpa using h

/-- Witness for C1: a three-response run (with an empty middle response)
emits each response's results per cycle, and the second cycle's fetch
carries `since = 5`, the first response's `last_seq`. -/
theorem changes_longpoll_loop_witness :
    (longpollRun [("feed", Json.str "longpoll")]
        [⟨[Json.str "a", Json.str "b"], Json.num 5⟩, ⟨[], Json.num 7⟩,
         ⟨[Json.str "c"], Json.num 9⟩]).map Prod.snd
      = [[Json.str "a", Json.str "b"], [], [Json.str "c"]]
  ∧ ((longpollRun [("feed", Json.str "longpoll")]
        [⟨[Json.str "a", Json.str "b"], Json.num 5⟩, ⟨[], Json.num 7⟩,
         ⟨[Json.str "c"], Json.num 9⟩]).get ⟨1, by decide⟩).1
      = [("feed", Json.str "longpoll"), ("since", Json.num 5)]
  ∧ changes (some (Json.obj [("feed", Json.str "longpoll")]))
      = .longpoll [("feed", Json.str "longpoll")] := by
  have h := changes_longpoll_loop [("feed", Json.str "longpoll")]
    [⟨[Json.str "a", Json.str "b"], Json.num 5⟩, ⟨[], Json.num 7⟩,
     ⟨[Json.str "c"], Json.num 9⟩] [] 0 (by decide)
  refine ⟨h.2.1.trans (by rfl), ?_, ?_⟩
  · exact h.2.2.1.trans (by rfl)
  · have hc := h.1 (Json.obj [("feed", Json.str "longpoll")])
      (by simp [jsGet, lookupField]) rfl
    rw [hc]
    rfl

/-- **C9 (amended)**: `changes` throws `InvalidArgument` synchronously
(before any request) for `feed: 'continuous'` and for every *truthy*
non-object options value; a provided but falsy options value (`false`,
`0`, `''`) is not rejected — it is treated like an absent argument and a
single fetch without a query string proceeds. -/
theorem changes_validation_amended :
    (∀ v : Json, jsGet v "feed" = some (.str "continuous") → isObjType v = true →
      changes (some v) = .throwErr "rxCouch.db.changes: feed: \"continuous\" not supported")
  ∧ (∀ v : Json, jsTruthy v = true → isObjType v = false →
      changes (some v) = .throwErr "rxCouch.db.changes: options must be an object")
  ∧ (∀ v : Json, jsTruthy v = false → changes (some v) = .once none) := by
  refine ⟨?_, ?_, ?_⟩
  · intro v hfeed hobj
    cases v with
    | obj fs =>
      simp only [changes, jsTruthy, hobj, Bool.not_true, Bool.and_false, Bool.false_and]
      rw [show jsGet (Json.obj fs) "feed" = some (.str "continuous") from hfeed]
      simp [jsStrictEq]
    | arr xs =>
      simp only [changes, jsTruthy, hobj, Bool.not_true, Bool.and_false, Bool.false_and]
      rw [show jsGet (Json.arr xs) "feed" = some (.str "continuous") from hfeed]
      simp [jsStrictEq]
    | null => simp [jsGet] at hfeed
    | undef => simp [isObjType] at hobj
    | bool b => simp [isObjType] at hobj
    | num n => simp [isObjType] at hobj
    | str s => simp [isObjType] at hobj
  · intro v htr hobj
    simp [changes, htr, hobj]
  · intro v htr
    simp [changes, htr]

/-- Counterexample for C9 as frozen: `false` is a provided non-object
options argument, yet `changes(false)` does not fail synchronously — it
proceeds to a single fetch with no query string (`options && typeof
options !== 'object'` only rejects *truthy* non-objects). -/
theorem changes_accepts_falsy_nonobject :
    changes (some (Json.bool false)) = .once none
  ∧ changes (some (Json.bool false))
      ≠ .throwErr "rxCouch.db.changes: options must be an object" := by
  constructor
  · rfl
  · intro h
    rw [show changes (some (Json.bool false)) = .once none from rfl] at h
    cases h

/-- Witness for the amended C9: `{feed:'continuous'}` and a truthy
non-object are rejected; the falsy `0` proceeds. -/
theorem changes_validation_amended_witness :
    changes (some (Json.obj [("feed", Json.str "continuous")]))
      = .throwErr "rxCouch.db.changes: feed: \"continuous\" not supported"
  ∧ changes (some (Json.str "oops"))
      = .throwErr "rxCouch.db.changes: options must be an object"
  ∧ changes (some (Json.num 0)) = .once none := by
  refine ⟨changes_validation_amended.1 _ (by simp [jsGet, lookupField]) rfl,
    changes_validation_amended.2.1 _ (by simp [jsTruthy]) rfl,
    changes_validation_amended.2.2 _ (by simp [jsTruthy])⟩

/-- **C8** (evidence): the constructor checks only `parsedUrl.pathname`
and never the query string, although its own error message promises "must
not contain a path or query string".  `http://localhost:5984/?foo=bar`
parses with pathname `/` and a non-empty query, yet construction
*succeeds* and stores the query in the base URL — contradicting the
claim's first half — while a URL with an extra path segment is rejected
and clean URLs are accepted and normalized, as the claim's second half
says.  (`parsedUrl.path`, which includes the search, was presumably
intended where `parsedUrl.pathname` is used.) -/
theorem server_constructor_accepts_query_string :
    (urlParse "http://localhost:5984/?foo=bar").search = some "?foo=bar"
  ∧ (urlParse "http://localhost:5984/?foo=bar").pathname = some "/"
  ∧ serverConstructor (some "http://localhost:5984/?foo=bar")
      = .ok { baseUrl := "http://localhost:5984/?foo=bar" }
  ∧ serverConstructor (some "http://localhost:5984/some_db")
      = .error "CouchDB server must not contain a path or query string"
  ∧ serverConstructor (some "http://localhost:5984") = .ok { baseUrl := "http://localhost:5984/" }
  ∧ serverConstructor none = .ok { baseUrl := "http://localhost:5984/" } :=
  ⟨rfl, rfl, rfl, rfl, rfl, rfl⟩

/-! ## Observe lemmas -/

theorem jsStrictEq_str_eq_jsonBEq (x : Json) (s : String) :
    jsStrictEq x (.str s) = jsonBEq x (.str s) := by
  cases x <;> simp [jsStrictEq, jsonBEq]

theorem truthy_strictEq_eq_optBEq (rc : Option Json) (rv : String) (h : rv ≠ "") :
    (truthyOpt rc && jsStrictEq (rc.getD .undef) (.str rv))
      = optJsonBEq rc (some (.str rv)) := by
  cases rc with
  | none => simp [truthyOpt, jsStrictEq, optJsonBEq, Option.getD]
  | some t =>
    cases t with
    | str u =>
      by_cases hu : u = ""
      · subst hu
        simp [truthyOpt, jsTruthy, jsStrictEq, optJsonBEq, jsonBEq, Ne.symm h]
      · simp [truthyOpt, jsTruthy, jsStrictEq, optJsonBEq, jsonBEq, hu]
    | null => simp [truthyOpt, jsTruthy, jsStrictEq, optJsonBEq, jsonBEq]
    | undef => simp [truthyOpt, jsTruthy, jsStrictEq, optJsonBEq, jsonBEq]
    | bool b => cases b <;> simp [truthyOpt, jsTruthy, jsStrictEq, optJsonBEq, jsonBEq]
    | num n => by_cases hn : n = 0 <;> simp [truthyOpt, jsTruthy, jsStrictEq, optJsonBEq, jsonBEq, hn]
    | arr xs => simp [truthyOpt, jsTruthy, jsStrictEq, optJsonBEq, jsonBEq]
    | obj fs => simp [truthyOpt, jsTruthy, jsStrictEq, optJsonBEq, jsonBEq]

/-- With a truthy string revision on the record, the code's filter
predicate coincides with the specification's drop rule at related states
(`some rc` records the previous emitted revision `rc`). -/
theorem observeFilterPred_eq_spec (id : String) (rc : Option Json) (d : Json) (rv : String)
    (hrv : rv ≠ "") (hd : jsGet d "_rev" = some (.str rv)) :
    observeFilterPred id rc d
      = (jsonBEq ((jsGet d "_id").getD .undef) (.str id)
          && !(optJsonBEq rc (jsGet d "_rev"))) := by
  rw [observeFilterPred, hd]
  rw [show (some (Json.str rv)).getD .undef = Json.str rv from rfl]
  rw [truthy_strictEq_eq_optBEq rc rv hrv, jsStrictEq_str_eq_jsonBEq]
  cases h1 : jsonBEq ((jsGet d "_id").getD .undef) (.str id) <;>
    cases h2 : optJsonBEq rc (some (.str rv)) <;> simp

theorem observeFilterRun_eq_spec_aux (id : String) :
    ∀ (feed : List Json),
      (∀ d ∈ feed, ∃ rv, rv ≠ "" ∧ jsGet d "_rev" = some (.str rv)) →
      ∀ (rc : Option Json),
        observeFilterRun id rc feed = specObserveDedup id (some rc) feed := by
  intro feed
  induction feed with
  | nil => intro _ _; rfl
  | cons d ds ih =>
    intro hfeed rc
    obtain ⟨rv, hrv, hd⟩ := hfeed d (List.mem_cons_self _ _)
    have hds := fun x hx => hfeed x (List.mem_cons_of_mem _ hx)
    rw [observeFilterRun, specObserveDedup, observeFilterPred_eq_spec id rc d rv hrv hd]
    by_cases hp : (jsonBEq ((jsGet d "_id").getD .undef) (.str id)
        && !(optJsonBEq rc (jsGet d "_rev"))) = true
    · rw [if_pos hp, if_pos hp, ih hds (jsGet d "_rev")]
    · rw [if_neg hp, if_neg hp, ih hds rc]

theorem observeFilterRun_eq_spec_none (id : String) :
    ∀ (feed : List Json),
      (∀ d ∈ feed, ∃ rv, rv ≠ "" ∧ jsGet d "_rev" = some (.str rv)) →
      observeFilterRun id none feed = specObserveDedup id none feed := by
  intro feed
  induction feed with
  | nil => intro _; rfl
  | cons d ds ih =>
    intro hfeed
    obtain ⟨rv, hrv, hd⟩ := hfeed d (List.mem_cons_self _ _)
    have hds := fun x hx => hfeed x (List.mem_cons_of_mem _ hx)
    have hpred : observeFilterPred id none d
        = (jsonBEq ((jsGet d "_id").getD .undef) (.str id) && !false) := by
      rw [observeFilterPred_eq_spec id none d rv hrv hd]
      simp [optJsonBEq, hd]
    rw [observeFilterRun, specObserveDedup, hpred]
    by_cases hp : (jsonBEq ((jsGet d "_id").getD .undef) (.str id) && !false) = true
    · rw [if_pos hp, if_pos (by simpa using hp), observeFilterRun_eq_spec_aux id ds hds]
    · rw [if_neg hp, if_neg (by simpa using hp), ih hds]

theorem observeFilterPred_prev_ne (id : String) (rc : Option Json) (b : Json) (rvb : String)
    (hrvb : rvb ≠ "") (hb : jsGet b "_rev" = some (.str rvb))
    (hp : observeFilterPred id rc b = true) : rc ≠ some (.str rvb) := by
  intro heq
  subst heq
  rw [observeFilterPred, hb] at hp
  simp [truthyOpt, jsTruthy, jsStrictEq, hrvb] at hp

theorem observeFilterRun_chain (id : String) :
    ∀ (feed : List Json),
      (∀ d ∈ feed, ∃ rv, rv ≠ "" ∧ jsGet d "_rev" = some (.str rv)) →
      ∀ (rc : Option Json),
        List.Chain' (fun a b => jsGet a "_rev" ≠ jsGet b "_rev") (observeFilterRun id rc feed)
      ∧ (∀ a ∈ (observeFilterRun id rc feed).head?, observeFilterPred id rc a = true)
      ∧ (∀ a ∈ observeFilterRun id rc feed, a ∈ feed) := by
  intro feed
  induction feed with
  | nil =>
    intro _ rc
    exact ⟨List.chain'_nil, by simp [observeFilterRun], by simp [observeFilterRun]⟩
  | cons d ds ih =>
    intro hfeed rc
    have hds := fun x hx => hfeed x (List.mem_cons_of_mem _ hx)
    by_cases hp : observeFilterPred id rc d = true
    · rw [observeFilterRun, if_pos hp]
      obtain ⟨ch, hhead, sub⟩ := ih hds (jsGet d "_rev")
      refine ⟨?_, ?_, ?_⟩
      · rw [List.chain'_cons']
        refine ⟨?_, ch⟩
        intro b hb
        have hbmem : b ∈ ds := sub b (List.mem_of_mem_head? hb)
        obtain ⟨rvb, hrvb, hbrev⟩ := hds b hbmem
        have hbp := hhead b hb
        have hne := observeFilterPred_prev_ne id (jsGet d "_rev") b rvb hrvb hbrev hbp
        rw [hbrev]
        exact hne
      · intro a ha
        simp only [List.head?_cons, Option.mem_def, Option.some.injEq] at ha
        subst ha
        exact hp
      · intro a ha
        rcases List.mem_cons.mp ha with h | h
        · exact h ▸ List.mem_cons_self _ _
        · exact List.mem_cons_of_mem _ (sub a h)
    · rw [observeFilterRun, if_neg hp]
      obtain ⟨ch, hhead, sub⟩ := ih hds rc
      exact ⟨ch, hhead, fun a ha => List.mem_cons_of_mem _ (sub a ha)⟩

theorem observeFilterRun_placeholder_cons (id : String) (xs : List Json) :
    observeFilterRun id none (placeholderDoc id :: xs)
      = placeholderDoc id :: observeFilterRun id none xs := by
  have hpred : observeFilterPred id none (placeholderDoc id) = true := by
    simp [observeFilterPred, placeholderDoc, jsGet, lookupField, jsStrictEq, truthyOpt]
  have hrev : jsGet (placeholderDoc id) "_rev" = none := by
    simp [placeholderDoc, jsGet, lookupField]
  rw [observeFilterRun, if_pos hpred, hrev]

/-- **C2**: observing a document whose initial `get` fails (the
nonexistent-document case) emits the `{_id, _empty: true}` placeholder
first; and the de-duplicating filter that every `observe` stream passes
through is exactly the specification's rule — drop a record iff its `_id`
differs from the observed ID or its `_rev` equals the immediately
preceding emitted value's revision (last-emitted comparison only) — so no
two consecutive emissions carry the same revision.  Feed records carry
server revision tokens, i.e. non-empty string `_rev` values. -/
theorem observe_placeholder_and_dedup
    (st : DbState) (id e : String) (ded sh : FeedRun) (out : ObserveOutput) (st' : DbState)
    (h404 : strContains e "HTTP Error 404" = true)
    (hobs : observe st ⟨id, .error e, ded, sh⟩ = .ok (out, st')) :
    out.docs.head? = some (placeholderDoc id)
  ∧ (∀ (first : Json) (feed : List Json),
      (∀ d ∈ feed, ∃ rv, rv ≠ "" ∧ jsGet d "_rev" = some (.str rv)) →
      observeFilterRun id none (first :: feed) = specObserveDedup id none (first :: feed)
    ∧ List.Chain' (fun a b => jsGet a "_rev" ≠ jsGet b "_rev")
        (observeFilterRun id none (first :: feed))) := by
  constructor
  · by_cases hid : id = ""
    · rw [observe, if_pos hid] at hobs
      cases hobs
    · rw [observe, if_neg hid] at hobs
      injection hobs with hobs
      have hout : out = (observeCall st ⟨id, .error e, ded, sh⟩).1 := by
        rw [hobs]
      rw [hout]
      obtain ⟨flag⟩ := st
      cases flag with
      | true => simp [observeCall, observeFilterRun_placeholder_cons]
      | false =>
        cases hde : ded.err? with
        | none => simp [observeCall, hde, observeFilterRun_placeholder_cons]
        | some x => simp [observeCall, hde, observeFilterRun_placeholder_cons]
  · intro first feed hfeed
    constructor
    · have hpred : observeFilterPred id none first
          = (jsonBEq ((jsGet first "_id").getD .undef) (.str id) && !false) := by
        rw [observeFilterPred, jsStrictEq_str_eq_jsonBEq]
        simp [truthyOpt]
      rw [observeFilterRun, specObserveDedup, hpred]
      by_cases hp : (jsonBEq ((jsGet first "_id").getD .undef) (.str id) && !false) = true
      · rw [if_pos hp, if_pos (by simpa using hp),
          observeFilterRun_eq_spec_aux id feed hfeed (jsGet first "_rev")]
      · rw [if_neg hp, if_neg (by simpa using hp),
          observeFilterRun_eq_spec_none id feed hfeed]
    · by_cases hp : observeFilterPred id none first = true
      · rw [observeFilterRun, if_pos hp]
        obtain ⟨ch, hhead, sub⟩ := observeFilterRun_chain id feed hfeed (jsGet first "_rev")
        rw [List.chain'_cons']
        refine ⟨?_, ch⟩
        intro b hb
        have hbmem : b ∈ feed := sub b (List.mem_of_mem_head? hb)
        obtain ⟨rvb, hrvb, hbrev⟩ := hfeed b hbmem
        have hbp := hhead b hb
        have hne := observeFilterPred_prev_ne id (jsGet first "_rev") b rvb hrvb hbrev hbp
        rw [hbrev]
        exact hne
      · rw [observeFilterRun, if_neg hp]
        exact (observeFilterRun_chain id feed hfeed none).1

/-- Witness for C2: observing `x` when `get` fails with 404 emits the
placeholder first, and a feed replaying revision `1-a` twice plus a
foreign document `y` is de-duplicated exactly as the specification's rule
computes. -/
theorem observe_placeholder_and_dedup_witness :
    (observeCall ⟨false⟩ ⟨"x", .error "HTTP Error 404 (Object Not Found)",
        ⟨[], none⟩, ⟨[], none⟩⟩).1.docs.head? = some (placeholderDoc "x")
  ∧ observeFilterRun "x" none [placeholderDoc "x",
        Json.obj [("_id", Json.str "x"), ("_rev", Json.str "1-a")],
        Json.obj [("_id", Json.str "x"), ("_rev", Json.str "1-a")],
        Json.obj [("_id", Json.str "y"), ("_rev", Json.str "1-b")]]
      = specObserveDedup "x" none [placeholderDoc "x",
        Json.obj [("_id", Json.str "x"), ("_rev", Json.str "1-a")],
        Json.obj [("_id", Json.str "x"), ("_rev", Json.str "1-a")],
        Json.obj [("_id", Json.str "y"), ("_rev", Json.str "1-b")]] := by
  have h := observe_placeholder_and_dedup ⟨false⟩ "x" "HTTP Error 404 (Object Not Found)"
    ⟨[], none⟩ ⟨[], none⟩
    (observeCall ⟨false⟩ ⟨"x", .error "HTTP Error 404 (Object Not Found)",
        ⟨[], none⟩, ⟨[], none⟩⟩).1
    (observeCall ⟨false⟩ ⟨"x", .error "HTTP Error 404 (Object Not Found)",
        ⟨[], none⟩, ⟨[], none⟩⟩).2
    (by decide) rfl
  refine ⟨h.1, ?_⟩
  exact (h.2 (placeholderDoc "x")
    [Json.obj [("_id", Json.str "x"), ("_rev", Json.str "1-a")],
     Json.obj [("_id", Json.str "x"), ("_rev", Json.str "1-a")],
     Json.obj [("_id", Json.str "y"), ("_rev", Json.str "1-b")]]
    (by
      intro d hd
      fin_cases hd
      · exact ⟨"1-a", by decide, rfl⟩
      · exact ⟨"1-a", by decide, rfl⟩
      · exact ⟨"1-b", by decide, rfl⟩)).1

/-- **C5 (amended)**: `observe` intercepts *two* error conditions rather
than one: any failure of the initial `get` — not only not-found — is
replaced by the `{_id, _empty: true}` placeholder (the call behaves
exactly as if `get` had returned the placeholder), and any failure of the
dedicated filtered feed is intercepted and converted into the fallback
strategy switch; errors of the operative feed (the shared fallback, or a
dedicated feed that did not fail) are what the subscriber sees. -/
theorem observe_error_interception_amended :
    (∀ (st : DbState) (id e : String) (ded sh : FeedRun),
      observeCall st ⟨id, .error e, ded, sh⟩ = observeCall st ⟨id, .ok (placeholderDoc id), ded, sh⟩)
  ∧ (∀ (st : DbState) (inp : ObserveInput) (e : String),
      st.dbDoesNotSupportDocIdsFilter = false → inp.dedicated.err? = some e →
        (observeCall st inp).1.err? = inp.shared.err?
      ∧ (observeCall st inp).2.dbDoesNotSupportDocIdsFilter = true)
  ∧ (∀ (st : DbState) (inp : ObserveInput),
      st.dbDoesNotSupportDocIdsFilter = true → (observeCall st inp).1.err? = inp.shared.err?)
  ∧ (∀ (st : DbState) (inp : ObserveInput),
      st.dbDoesNotSupportDocIdsFilter = false → inp.dedicated.err? = none →
        (observeCall st inp).1.err? = none) := by
  refine ⟨?_, ?_, ?_, ?_⟩
  · intro st id e ded sh
    rfl
  · intro st inp e hflag hde
    obtain ⟨flag⟩ := st
    simp only at hflag
    subst hflag
    constructor <;> simp [observeCall, hde]
  · intro st inp hflag
    obtain ⟨flag⟩ := st
    simp only at hflag
    subst hflag
    simp [observeCall]
  · intro st inp hflag hde
    obtain ⟨flag⟩ := st
    simp only at hflag
    subst hflag
    simp [observeCall, hde]

/-- Counterexample for C5 as frozen: the initial `get` failing with an
HTTP 500 — an error other than not-found — is *not* surfaced to the
subscriber: the stream emits the placeholder and reports no error,
because `.catch(Rx.Observable.just({_id, _empty: true}))` swallows every
`get` failure. -/
theorem observe_get_error_not_surfaced :
    (observeCall ⟨false⟩ ⟨"x", .error "HTTP Error 500 (Internal Server Error)",
        ⟨[], none⟩, ⟨[], none⟩⟩).1.err? = none
  ∧ (observeCall ⟨false⟩ ⟨"x", .error "HTTP Error 500 (Internal Server Error)",
        ⟨[], none⟩, ⟨[], none⟩⟩).1.docs = [placeholderDoc "x"]
  ∧ strContains "HTTP Error 500 (Internal Server Error)" "HTTP Error 404" = false :=
  ⟨rfl, rfl, by decide⟩

/-- Witness for the amended C5: a 500 `get` failure behaves like a
placeholder fetch; a dedicated-feed failure is converted into the
fallback switch and the shared feed's error is what surfaces. -/
theorem observe_error_interception_amended_witness :
    observeCall ⟨false⟩ ⟨"x", .error "HTTP Error 500 (Internal Server Error)",
        ⟨[], none⟩, ⟨[], none⟩⟩
      = observeCall ⟨false⟩ ⟨"x", .ok (placeholderDoc "x"), ⟨[], none⟩, ⟨[], none⟩⟩
  ∧ (observeCall ⟨false⟩ ⟨"y", .ok (Json.obj [("_id", Json.str "y")]),
        ⟨[], some "HTTP Error 400 (Bad Request)"⟩, ⟨[], some "shared-feed-error"⟩⟩).1.err?
      = some "shared-feed-error"
  ∧ (observeCall ⟨false⟩ ⟨"y", .ok (Json.obj [("_id", Json.str "y")]),
        ⟨[], some "HTTP Error 400 (Bad Request)"⟩, ⟨[], some "shared-feed-error"⟩⟩).2.dbDoesNotSupportDocIdsFilter
      = true := by
  have h := observe_error_interception_amended
  exact ⟨h.1 ⟨false⟩ "x" "HTTP Error 500 (Internal Server Error)" ⟨[], none⟩ ⟨[], none⟩,
    (h.2.1 ⟨false⟩ _ "HTTP Error 400 (Bad Request)" rfl rfl).1,
    (h.2.1 ⟨false⟩ _ "HTTP Error 400 (Bad Request)" rfl rfl).2⟩

/-- Once the capability flag is set, every later `observe` on the handle
keeps it set and never attempts the dedicated feed. -/
theorem observeSeq_flag_true (ins : List ObserveInput) :
    ∀ (s1 : DbState), s1.dbDoesNotSupportDocIdsFilter = true →
    (observeSeq s1 ins).2.dbDoesNotSupportDocIdsFilter = true
  ∧ ∀ out ∈ (observeSeq s1 ins).1, out.usedDedicated = false := by
  induction ins with
  | nil =>
    intro s1 h
    exact ⟨h, by simp [observeSeq]⟩
  | cons inp rest ih =>
    intro s1 h
    obtain ⟨flag⟩ := s1
    simp only at h
    subst h
    by_cases hid : inp.id = ""
    · rw [show observeSeq ⟨true⟩ (inp :: rest) = observeSeq ⟨true⟩ rest from by
        simp [observeSeq, observe, hid]]
      exact ih ⟨true⟩ rfl
    · have hcall : observe ⟨true⟩ inp = .ok (observeCall ⟨true⟩ inp) := by
        simp [observe, hid]
      have hcc : observeCall ⟨true⟩ inp
          = ({ docs := observeFilterRun inp.id none
                 ((match inp.fetched with
                   | .ok d => d
                   | .error _ => placeholderDoc inp.id) :: inp.shared.docs)
               err? := inp.shared.err?
               usedDedicated := false }, ⟨true⟩) := by
        simp [observeCall]
      obtain ⟨hflag, houts⟩ := ih ⟨true⟩ rfl
      constructor
      · simp only [observeSeq, hcall, hcc]
        exact hflag
      · simp only [observeSeq, hcall, hcc]
        intro out hout
        rcases List.mem_cons.mp hout with hh | hh
        · rw [hh]
        · exact houts out hh

/-- **C6**: the `_dbDoesNotSupportDocIdsFilter` capability flag is sticky:
after any call that leaves it set, every subsequent `observe` on the same
handle keeps it set and reports `usedDedicated = false`; a call's
resulting flag is exactly the old flag OR-ed with "the dedicated feed was
attempted and failed" (so nothing ever resets it); and with the flag set,
a call never attempts the dedicated feed and serves the subscriber
directly from the shared fallback feed. -/
theorem observe_capability_flag_sticky (st : DbState) (inp : ObserveInput)
    (ins : List ObserveInput)
    (hset : (observeCall st inp).2.dbDoesNotSupportDocIdsFilter = true) :
    (observeSeq (observeCall st inp).2 ins).2.dbDoesNotSupportDocIdsFilter = true
  ∧ (∀ out ∈ (observeSeq (observeCall st inp).2 ins).1, out.usedDedicated = false)
  ∧ (∀ (st2 : DbState) (inp2 : ObserveInput),
      (observeCall st2 inp2).2.dbDoesNotSupportDocIdsFilter
        = (st2.dbDoesNotSupportDocIdsFilter || inp2.dedicated.err?.isSome))
  ∧ (∀ (st2 : DbState) (inp2 : ObserveInput), st2.dbDoesNotSupportDocIdsFilter = true →
        (observeCall st2 inp2).1.usedDedicated = false
      ∧ (observeCall st2 inp2).1.docs = observeFilterRun inp2.id none
          ((match inp2.fetched with
            | .ok d => d
            | .error _ => placeholderDoc inp2.id) :: inp2.shared.docs)) := by
  obtain ⟨hflag, houts⟩ := observeSeq_flag_true ins (observeCall st inp).2 hset
  refine ⟨hflag, houts, ?_, ?_⟩
  · intro st2 inp2
    obtain ⟨flag⟩ := st2
    cases flag with
    | true => simp [observeCall]
    | false => cases hde : inp2.dedicated.err? <;> simp [observeCall, hde]
  · intro st2 inp2 h2
    obtain ⟨flag⟩ := st2
    simp only at h2
    subst h2
    constructor <;> simp [observeCall]

/-- Witness for C6: after an `observe` whose dedicated feed fails sets the
flag, two further calls keep the flag set and never attempt the dedicated
feed. -/
theorem observe_capability_flag_sticky_witness :
    ((observeSeq (observeCall ⟨false⟩
        ⟨"x", .ok (Json.obj [("_id", Json.str "x")]),
         ⟨[], some "HTTP Error 400 (Bad Request)"⟩, ⟨[], none⟩⟩).2
        [⟨"x", .ok (Json.obj [("_id", Json.str "x")]), ⟨[], none⟩, ⟨[], none⟩⟩,
         ⟨"z", .error "HTTP Error 404 (Object Not Found)", ⟨[], none⟩, ⟨[], none⟩⟩]).2.dbDoesNotSupportDocIdsFilter
      = true)
  ∧ ((observeSeq (observeCall ⟨false⟩
        ⟨"x", .ok (Json.obj [("_id", Json.str "x")]),
         ⟨[], some "HTTP Error 400 (Bad Request)"⟩, ⟨[], none⟩⟩).2
        [⟨"x", .ok (Json.obj [("_id", Json.str "x")]), ⟨[], none⟩, ⟨[], none⟩⟩,
         ⟨"z", .error "HTTP Error 404 (Object Not Found)", ⟨[], none⟩, ⟨[], none⟩⟩]).1.all
      (fun out => out.usedDedicated == false)) = true := by
  have h := observe_capability_flag_sticky ⟨false⟩
    ⟨"x", .ok (Json.obj [("_id", Json.str "x")]),
     ⟨[], some "HTTP Error 400 (Bad Request)"⟩, ⟨[], none⟩⟩
    [⟨"x", .ok (Json.obj [("_id", Json.str "x")]), ⟨[], none⟩, ⟨[], none⟩⟩,
     ⟨"z", .error "HTTP Error 404 (Object Not Found)", ⟨[], none⟩, ⟨[], none⟩⟩]
    rfl
  refine ⟨h.1, ?_⟩
  rw [List.all_eq_true]
  intro out hout
  simp [h.2.1 out hout]

end RxCouch
